import Mathlib

/-!
Verification of the request-dispatch and proxy-bridge subsystem of a
TypeScript web application server ("my_typescript_proxy_server").

The development shallowly embeds the relevant source files:

* SpringBridge (src/unnamed/part_004): health probing, the periodic
  health-check tick, metadata loading, and the upstream path matcher.
* ServletContainer (src/unnamed/part_005): servlet registration and
  lifecycle, startup/shutdown, and longest-prefix request dispatch.
* Route / Router (src/core/Route.ts, src/core/Router.ts): route-template
  compilation to a regular expression, anchored matching with parameter
  extraction, first-match dispatch, and the middleware chain.

Conventions used throughout:

* JavaScript strings are modelled as Lean String; character positions and
  lengths agree for the ASCII data handled here.
* Asynchronous methods are modelled in direct style.  A promise that the
  source awaits propagates its error to the caller; a promise whose result
  the source discards has its state effects applied and its error dropped
  (this is exactly what happens to an un-awaited rejected promise).
* External I/O (HTTP responses of the upstream, servlet behaviour) enters
  the model as explicit arguments.
* Wall-clock data (Date fields) and logging are not modelled; neither is
  observed by any claim.
-/

/-! ## JavaScript string primitives -/

/-- JS String.prototype.startsWith: the receiver begins with the argument. -/
def jsStartsWith (s pre : String) : Bool :=
  pre.toList.isPrefixOf s.toList

/-- JS String.prototype.endsWith: the receiver ends with the argument. -/
def jsEndsWith (s sfx : String) : Bool :=
  sfx.toList.isSuffixOf s.toList

/-- JS s.slice(0, -n): the receiver without its last n characters. -/
def jsDropLast (s : String) (n : Nat) : String :=
  String.mk (s.toList.take (s.toList.length - n))

/-- JS s.slice(n): the receiver without its first n characters. -/
def jsDropFirst (s : String) (n : Nat) : String :=
  String.mk (s.toList.drop n)

/-- JS s.includes(c) for a single character. -/
def jsContainsChar (s : String) (c : Char) : Bool :=
  s.toList.contains c

/-! ## SpringBridge (src/unnamed/part_004)

One row of the upstream route snapshot (interface SpringMapping); only the
fields consulted by hasSpringMapping are modelled. -/

structure SMapping where
  path : String
  method : String
deriving DecidableEq, Repr

/-- SpringBridge.matchPath: exact literal match, else a trailing
double-wildcard pattern matches by string prefix of pattern.slice(0,-3),
else a trailing single-wildcard pattern matches when the path starts with
pattern.slice(0,-2) and the remainder has no further separator. -/
def matchPath (pattern path : String) : Bool :=
  if pattern = path then
    true
  else if jsEndsWith pattern "/**" then
    jsStartsWith path (jsDropLast pattern 3)
  else if jsEndsWith pattern "/*" then
    let basePath := jsDropLast pattern 2
    let remainingPath := jsDropFirst path basePath.length
    jsStartsWith path basePath && !(jsContainsChar remainingPath '/')
  else
    false

/-- SpringBridge.hasSpringMapping over a loaded snapshot: some mapping whose
method equals the upper-cased request method (or is the REQUEST wildcard)
has a matching path. -/
def hasSpringMapping (snapshot : Option (List SMapping)) (method path : String) : Bool :=
  match snapshot with
  | none => false
  | some mappings =>
      mappings.any fun m => (m.method = method.toUpper || m.method = "REQUEST") && matchPath m.path path

/-- SpringBridge.checkSpringHealth: the probe resolves with
res.statusCode === 200; a transport error or timeout (modelled as none)
resolves with false.  The promise never rejects, which the model reflects
by being a total function into Bool. -/
def checkSpringHealth (probeOutcome : Option Nat) : Bool :=
  match probeOutcome with
  | some statusCode => statusCode == 200
  | none => false

/-- The mutable fields of SpringBridge touched by the health-check loop. -/
structure BridgeState where
  isSpringReady : Bool
  springMetadata : Option (List SMapping)
deriving DecidableEq, Repr

/-- SpringBridge.loadSpringMetadata: the outcome of the metadata GET plus
JSON parsing and mapping extraction enters as an argument.  On success the
snapshot is replaced wholesale; on failure the method throws after the
this.springMetadata assignment was never reached, so the state is
returned unchanged together with the error. -/
def loadSpringMetadata (fetched : Except String (List SMapping)) (s : BridgeState) :
    BridgeState × Option String :=
  match fetched with
  | .ok mappings => ({ s with springMetadata := some mappings }, none)
  | .error e => (s, some e)

/-- One tick of the interval installed by SpringBridge.startHealthCheck:
re-check health; when readiness changed, store the new flag, and on a
transition to healthy reload the metadata, catching (only logging) a reload
failure.  The second component counts the loadSpringMetadata calls made by
the tick. -/
def healthCheckTick (isHealthy : Bool) (fetched : Except String (List SMapping))
    (s : BridgeState) : BridgeState × Nat :=
  if s.isSpringReady != isHealthy then
    let s1 := { s with isSpringReady := isHealthy }
    if isHealthy then
      let res := loadSpringMetadata fetched s1
      (res.1, 1)
    else
      (s1, 0)
  else
    (s, 0)

/-! ## Theorems for the SpringBridge claims -/

/-- C4: the claim states that a pattern ending in a single-wildcard segment
matches exactly one further segment, so that /static/STAR matches /static/a
and not /static/a/b.  The code computes basePath = pattern.slice(0,-2),
which also removes the separator, so the remainder of /static/a after
/static is /a, which contains a separator: the code rejects /static/a.  It
accepts /statica instead, whose remainder after /static is just the letter
a.  The double-wildcard and exact rules behave as claimed. -/
theorem matchPath_single_wildcard_bug :
    matchPath "/static/*" "/static/a" = false ∧
    matchPath "/static/*" "/static/a/b" = false ∧
    matchPath "/static/*" "/statica" = true ∧
    matchPath "/static/**" "/static/a/b" = true ∧
    matchPath "/static" "/static" = true ∧
    matchPath "/other" "/static/a" = false := by
  decide

/-- C7: on a health-check tick that observes a transition from unreachable
to ready, exactly one metadata refetch is performed, the readiness flag
becomes (and stays) true, and when the refetch fails the previously stored
route snapshot is left unchanged. -/
theorem healthCheckTick_recovery (s : BridgeState)
    (fetched : Except String (List SMapping))
    (hdown : s.isSpringReady = false) :
    (healthCheckTick true fetched s).2 = 1 ∧
    (healthCheckTick true fetched s).1.isSpringReady = true ∧
    (∀ e, fetched = .error e →
      (healthCheckTick true fetched s).1.springMetadata = s.springMetadata) := by
  cases s with
  | mk ready meta =>
      subst hdown
      refine ⟨?_, ?_, ?_⟩
      · cases fetched <;> simp [healthCheckTick, loadSpringMetadata]
      · cases fetched <;> simp [healthCheckTick, loadSpringMetadata]
      · intro e he
        subst he
        simp [healthCheckTick, loadSpringMetadata]

/-- Witness for C7 at a concrete bridge state and a failing refetch. -/
theorem healthCheckTick_recovery_witness :
    (BridgeState.mk false (some [SMapping.mk "/api" "GET"])).isSpringReady = false ∧
    ((healthCheckTick true (.error "io") (BridgeState.mk false (some [SMapping.mk "/api" "GET"]))).2 = 1 ∧
     (healthCheckTick true (.error "io") (BridgeState.mk false (some [SMapping.mk "/api" "GET"]))).1.isSpringReady = true ∧
     (∀ e, (Except.error "io" : Except String (List SMapping)) = .error e →
       (healthCheckTick true (.error "io") (BridgeState.mk false (some [SMapping.mk "/api" "GET"]))).1.springMetadata =
         (BridgeState.mk false (some [SMapping.mk "/api" "GET"])).springMetadata)) :=
  ⟨by decide,
   healthCheckTick_recovery (BridgeState.mk false (some [SMapping.mk "/api" "GET"]))
     (.error "io") (by decide)⟩

/-- C8 counterexample: the claim says any 2xx status is reported healthy,
but the probe compares the status code with 200 exactly, so the 2xx
status 204 is reported unhealthy. -/
theorem checkSpringHealth_2xx_counterexample :
    checkSpringHealth (some 204) = false ∧ 200 ≤ 204 ∧ 204 < 300 := by
  decide

/-- C8 (amended): the probe reports healthy exactly when the upstream GET
returned status code 200; any other status, and any transport error or
timeout (none), is reported unhealthy, and the probe never raises. -/
theorem checkSpringHealth_iff_200 (probeOutcome : Option Nat) :
    checkSpringHealth probeOutcome = true ↔ probeOutcome = some 200 := by
  cases probeOutcome with
  | none => simp [checkSpringHealth]
  | some statusCode => simp [checkSpringHealth]

/-! ## ServletContainer (src/unnamed/part_005)

The servlet instances themselves are external collaborators; their
behaviour enters the model through two failure switches.  A ghost event
history per mapping records every init, service and destroy call actually
delivered to the servlet (a destroy that throws did not complete and is
not recorded). -/

structure ServletSpec where
  initFails : Bool
  destroyFails : Bool
deriving DecidableEq, Repr

inductive SEvent
  | initCall
  | serviceCall
  | destroyCall
deriving DecidableEq, Repr

/-- One entry of the servletMappings map (interface ServletMapping).
servletConfig models the config field inside the servlet object set by
GenericServlet.init and read back through getServletConfig(); the source
never clears it.  Dates and the container-wide totalRequests counter are
not modelled. -/
structure SMap where
  urlPattern : String
  servletName : String
  loadOnStartup : Option Int
  requestCount : Nat
  servletConfig : Option Unit
  events : List SEvent
  spec : ServletSpec
deriving DecidableEq, Repr

/-- The mutable fields of ServletContainer.  The two JS maps
servletMappings and servletsByName are updated in lockstep by the source,
so a single insertion-ordered list with both keys on each entry models the
pair. -/
structure ContainerState where
  mappings : List SMap
  isStarted : Bool
deriving DecidableEq, Repr

/-- Lookup in the servletMappings map. -/
def lookupMapping (ms : List SMap) (urlPattern : String) : Option SMap :=
  ms.find? fun m => m.urlPattern = urlPattern

/-- Replace the entry stored under a url pattern. -/
def updMapping (ms : List SMap) (urlPattern : String) (m' : SMap) : List SMap :=
  ms.map fun m => if m.urlPattern = urlPattern then m' else m

/-- ServletContainer.initializeServlet: GenericServlet.init stores the
config, then the subclass hook runs and may throw; the container wraps
that into a ServletContainerException.  The config assignment precedes the
hook, so it sticks even on failure. -/
def initializeServlet (m : SMap) : SMap × Option String :=
  let m' := { m with servletConfig := some (), events := m.events ++ [SEvent.initCall] }
  if m.spec.initFails then (m', some "Servlet initialization failed") else (m', none)

/-- A servlet destroy call: when the servlet's destroy throws, no
completed destroy is recorded. -/
def destroyServlet (m : SMap) : SMap × Option String :=
  if m.spec.destroyFails then
    (m, some "destroy failed")
  else
    ({ m with events := m.events ++ [SEvent.destroyCall] }, none)

/-- ServletContainer.isServletInitialized: the servlet counts as
initialized iff getServletConfig() is not null. -/
def isServletInitialized (m : SMap) : Bool :=
  m.servletConfig.isSome

/-- Stable ascending insertion by (loadOnStartup || 0), matching the JS
stable Array.prototype.sort with comparator a - b. -/
def insByLoad (x : SMap) : List SMap → List SMap
  | [] => [x]
  | y :: ys =>
      if y.loadOnStartup.getD 0 < x.loadOnStartup.getD 0 then x :: y :: ys
      else y :: insByLoad x ys

def sortByLoad : List SMap → List SMap
  | [] => []
  | x :: xs => insByLoad x (sortByLoad xs)

/-- The startup loop of ServletContainer.start: initialize the listed url
patterns in order, aborting on the first failure.  Mutations made before
the failure persist. -/
def initMany (s : ContainerState) : List String → ContainerState × Option String
  | [] => (s, none)
  | p :: ps =>
      match lookupMapping s.mappings p with
      | none => initMany s ps
      | some m =>
          let r := initializeServlet m
          let s' := { s with mappings := updMapping s.mappings p r.1 }
          match r.2 with
          | some e => (s', some e)
          | none => initMany s' ps

/-- ServletContainer.start: throws when already started; otherwise
initializes every servlet registered with a loadOnStartup value in
ascending priority order; a failure aborts startup leaving isStarted
false, and the exception is rethrown wrapped. -/
def startContainer (s : ContainerState) : ContainerState × Except String Unit :=
  if s.isStarted then
    (s, .error "Container is already started")
  else
    let startup := sortByLoad (s.mappings.filter fun m => m.loadOnStartup.isSome)
    let r := initMany s (startup.map fun m => m.urlPattern)
    match r.2 with
    | some e => (r.1, .error e)
    | none => ({ r.1 with isStarted := true }, .ok ())

/-- ServletContainer.stop: when not started only logs; otherwise calls
destroy on every servlet, logging (and otherwise ignoring) per-servlet
destroy failures, then clears isStarted. -/
def stopContainer (s : ContainerState) : ContainerState × Except String Unit :=
  if !s.isStarted then
    (s, .ok ())
  else
    ({ mappings := s.mappings.map fun m => (destroyServlet m).1, isStarted := false }, .ok ())

/-- ServletContainer.registerServlet: rejects a duplicate url pattern or
servlet name; otherwise appends the mapping to both maps and, when the
container is already running, initializes it immediately (the mapping
stays registered even if that initialization fails, since it was inserted
first). -/
def registerServlet (s : ContainerState) (urlPattern servletName : String)
    (loadOnStartup : Option Int) (spec : ServletSpec) : ContainerState × Except String Unit :=
  if s.mappings.any fun m => m.urlPattern = urlPattern then
    (s, .error "Servlet already mapped to URL pattern")
  else if s.mappings.any fun m => m.servletName = servletName then
    (s, .error "Servlet name already exists")
  else
    let m : SMap :=
      { urlPattern := urlPattern, servletName := servletName,
        loadOnStartup := loadOnStartup, requestCount := 0,
        servletConfig := none, events := [], spec := spec }
    let s1 := { s with mappings := s.mappings ++ [m] }
    if s1.isStarted then
      let r := initializeServlet m
      let s2 := { s1 with mappings := updMapping s1.mappings urlPattern r.1 }
      match r.2 with
      | some e => (s2, .error e)
      | none => (s2, .ok ())
    else
      (s1, .ok ())

/-- ServletContainer.unregisterServlet: unknown pattern throws; destroy is
awaited first, and only after it succeeds is the mapping removed from both
maps, so a destroy failure rethrows with the container state untouched. -/
def unregisterServlet (s : ContainerState) (urlPattern : String) :
    ContainerState × Except String Unit :=
  match lookupMapping s.mappings urlPattern with
  | none => (s, .error "No servlet mapped to URL pattern")
  | some m =>
      let r := destroyServlet m
      match r.2 with
      | some e => (s, .error e)
      | none =>
          ({ s with mappings := s.mappings.filter fun mm => ¬(mm.urlPattern = urlPattern) },
           .ok ())

/-- Stable descending insertion by pattern length, matching the JS stable
sort with comparator b.pattern.length - a.pattern.length used on the
prefix matches. -/
def insByLenDesc (x : SMap) : List SMap → List SMap
  | [] => [x]
  | y :: ys =>
      if x.urlPattern.length < y.urlPattern.length then y :: insByLenDesc x ys
      else x :: y :: ys

def sortByLenDesc : List SMap → List SMap
  | [] => []
  | x :: xs => insByLenDesc x (sortByLenDesc xs)

/-- ServletContainer.findMatchingServlet: first entry (in map insertion
order) whose pattern equals the request path exactly; otherwise the prefix
matches are collected, sorted by descending pattern length, and the first
is returned; otherwise null. -/
def findMatchingServlet (ms : List SMap) (requestPath : String) : Option SMap :=
  match ms.find? fun m => m.urlPattern = requestPath with
  | some m => some m
  | none =>
      (sortByLenDesc (ms.filter fun m => jsStartsWith requestPath m.urlPattern)).head?

/-- ServletContainer.handleRequest: throws when the container is not
started; returns false when no servlet matches; otherwise bumps the usage
counter, lazily initializes the servlet when getServletConfig() is still
null, and invokes service.  An initialization or service error is caught
and turned into a 500 response, still returning true. -/
def handleRequest (s : ContainerState) (requestPath : String) :
    ContainerState × Except String Bool :=
  if !s.isStarted then
    (s, .error "Container is not started")
  else
    match findMatchingServlet s.mappings requestPath with
    | none => (s, .ok false)
    | some m =>
        let m1 := { m with requestCount := m.requestCount + 1 }
        if isServletInitialized m1 then
          let m2 := { m1 with events := m1.events ++ [SEvent.serviceCall] }
          ({ s with mappings := updMapping s.mappings m.urlPattern m2 }, .ok true)
        else
          let r := initializeServlet m1
          match r.2 with
          | some _ =>
              ({ s with mappings := updMapping s.mappings m.urlPattern r.1 }, .ok true)
          | none =>
              let m2 := { r.1 with events := r.1.events ++ [SEvent.serviceCall] }
              ({ s with mappings := updMapping s.mappings m.urlPattern m2 }, .ok true)

/-! ## Theorems for the ServletContainer lifecycle claims -/

/-- True when the event history contains a service call delivered after a
completed destroy with no re-initialization in between; the flag carries
whether the servlet is currently destroyed-and-not-reinitialized. -/
def serviceAfterDestroyAux : List SEvent → Bool → Bool
  | [], _ => false
  | SEvent.destroyCall :: rest, _ => serviceAfterDestroyAux rest true
  | SEvent.initCall :: rest, _ => serviceAfterDestroyAux rest false
  | SEvent.serviceCall :: rest, dead => dead || serviceAfterDestroyAux rest dead

def serviceAfterDestroy (events : List SEvent) : Bool :=
  serviceAfterDestroyAux events false

/-- C6: the claim says no servlet ever receives service after its destroy
completed, without re-initialization.  Reachable refutation: register a
lazy servlet at /a, start, serve once (lazy init + service), stop (destroy
runs, but GenericServlet.destroy never clears the stored config), start
again (only loadOnStartup servlets are re-initialized), serve again:
isServletInitialized still sees the stale config, so service is invoked on
the destroyed servlet silently, with handleRequest reporting success. -/
theorem servlet_service_after_destroy_bug :
    (handleRequest
      (startContainer
        (stopContainer
          (handleRequest
            (startContainer
              (registerServlet { mappings := [], isStarted := false }
                "/a" "A" none ⟨false, false⟩).1).1
            "/a").1).1).1
      "/a").2 = .ok true ∧
    (lookupMapping
      (handleRequest
        (startContainer
          (stopContainer
            (handleRequest
              (startContainer
                (registerServlet { mappings := [], isStarted := false }
                  "/a" "A" none ⟨false, false⟩).1).1
              "/a").1).1).1
        "/a").1.mappings "/a").map SMap.events =
      some [SEvent.initCall, SEvent.serviceCall, SEvent.destroyCall, SEvent.serviceCall] ∧
    ((handleRequest
      (startContainer
        (stopContainer
          (handleRequest
            (startContainer
              (registerServlet { mappings := [], isStarted := false }
                "/a" "A" none ⟨false, false⟩).1).1
            "/a").1).1).1
      "/a").1.mappings.any fun m => serviceAfterDestroy m.events) = true := by
  exact ⟨rfl, rfl, rfl⟩

/-- C9: when unregisterServlet is called and the servlet's destroy throws,
the container rethrows a container exception and its state is completely
unchanged: the mapping is still stored under its url pattern (and name),
so the servlet remains registered and reachable by dispatch. -/
theorem unregister_destroy_failure_keeps_state (s : ContainerState)
    (urlPattern : String) (m : SMap)
    (hfind : lookupMapping s.mappings urlPattern = some m)
    (hfail : m.spec.destroyFails = true) :
    (unregisterServlet s urlPattern).1 = s ∧
    (∃ e, (unregisterServlet s urlPattern).2 = .error e) ∧
    lookupMapping (unregisterServlet s urlPattern).1.mappings urlPattern = some m := by
  simp only [unregisterServlet, hfind, destroyServlet, hfail]
  exact ⟨rfl, ⟨"destroy failed", rfl⟩, hfind⟩

/-- Witness for C9: a container holding one servlet at /x whose destroy
throws. -/
theorem unregister_destroy_failure_keeps_state_witness :
    lookupMapping [SMap.mk "/x" "X" none 0 (some ()) [SEvent.initCall] ⟨false, true⟩] "/x" =
      some (SMap.mk "/x" "X" none 0 (some ()) [SEvent.initCall] ⟨false, true⟩) ∧
    (SMap.mk "/x" "X" none 0 (some ()) [SEvent.initCall] ⟨false, true⟩).spec.destroyFails = true ∧
    ((unregisterServlet
        { mappings := [SMap.mk "/x" "X" none 0 (some ()) [SEvent.initCall] ⟨false, true⟩],
          isStarted := true } "/x").1 =
      { mappings := [SMap.mk "/x" "X" none 0 (some ()) [SEvent.initCall] ⟨false, true⟩],
        isStarted := true } ∧
     (∃ e, (unregisterServlet
        { mappings := [SMap.mk "/x" "X" none 0 (some ()) [SEvent.initCall] ⟨false, true⟩],
          isStarted := true } "/x").2 = .error e) ∧
     lookupMapping (unregisterServlet
        { mappings := [SMap.mk "/x" "X" none 0 (some ()) [SEvent.initCall] ⟨false, true⟩],
          isStarted := true } "/x").1.mappings "/x" =
       some (SMap.mk "/x" "X" none 0 (some ()) [SEvent.initCall] ⟨false, true⟩)) :=
  ⟨by decide, by decide,
   unregister_destroy_failure_keeps_state
     { mappings := [SMap.mk "/x" "X" none 0 (some ()) [SEvent.initCall] ⟨false, true⟩],
       isStarted := true }
     "/x" (SMap.mk "/x" "X" none 0 (some ()) [SEvent.initCall] ⟨false, true⟩)
     (by decide) (by decide)⟩

/-! ## Longest-prefix selection lemmas -/

theorem jsStartsWith_iff (s pre : String) :
    jsStartsWith s pre = true ↔ pre.toList <+: s.toList := by
  simp [jsStartsWith, List.isPrefixOf_iff_prefix]

theorem jsStartsWith_refl (s : String) : jsStartsWith s s = true := by
  simp [jsStartsWith_iff]

theorem strLen_toList (s : String) : s.length = s.toList.length := rfl

/-- Two patterns of equal length that both begin the same path are the
same string. -/
theorem pattern_eq_of_len {p q s : String}
    (hp : jsStartsWith s p = true) (hq : jsStartsWith s q = true)
    (hlen : p.length = q.length) : p = q := by
  rw [jsStartsWith_iff] at hp hq
  apply String.ext
  have hp' := List.prefix_iff_eq_take.mp hp
  have hq' := List.prefix_iff_eq_take.mp hq
  have : p.toList = q.toList := by
    rw [hp', hq', strLen_toList, strLen_toList] at *
    rw [hlen]
  exact this

theorem mem_insByLenDesc {a x : SMap} {l : List SMap} :
    a ∈ insByLenDesc x l ↔ a = x ∨ a ∈ l := by
  induction l with
  | nil => simp [insByLenDesc]
  | cons y ys ih =>
      by_cases h : x.urlPattern.length < y.urlPattern.length
      · simp [insByLenDesc, h, ih]
        tauto
      · simp [insByLenDesc, h]

/-- The head of the stable descending length sort exists for a nonempty
input, belongs to the input, and has maximal pattern length. -/
theorem sortByLenDesc_head (l : List SMap) (hne : l ≠ []) :
    ∃ h t, sortByLenDesc l = h :: t ∧ h ∈ l ∧
      ∀ y ∈ l, y.urlPattern.length ≤ h.urlPattern.length := by
  induction l with
  | nil => exact absurd rfl hne
  | cons x xs ih =>
      cases xs with
      | nil =>
          refine ⟨x, [], ?_, List.mem_singleton.mpr rfl, ?_⟩
          · simp [sortByLenDesc, insByLenDesc]
          · intro y hy
            simp only [List.mem_singleton] at hy
            simp [hy]
      | cons z zs =>
          obtain ⟨h, t, heq, hmem, hmax⟩ := ih (by simp)
          have hstep : sortByLenDesc (x :: z :: zs) = insByLenDesc x (h :: t) := by
            rw [show sortByLenDesc (x :: z :: zs) = insByLenDesc x (sortByLenDesc (z :: zs)) from rfl,
              heq]
          by_cases hlt : x.urlPattern.length < h.urlPattern.length
          · refine ⟨h, insByLenDesc x t, ?_, List.mem_cons_of_mem _ hmem, ?_⟩
            · rw [hstep]
              simp [insByLenDesc, hlt]
            · intro y hy
              rcases List.mem_cons.mp hy with hy | hy
              · subst hy
                exact Nat.le_of_lt hlt
              · exact hmax y hy
          · refine ⟨x, h :: t, ?_, List.mem_cons_self x _, ?_⟩
            · rw [hstep]
              simp [insByLenDesc, hlt]
            · intro y hy
              rcases List.mem_cons.mp hy with hy | hy
              · subst hy
                exact Nat.le_refl _
              · exact Nat.le_trans (hmax y hy) (Nat.le_of_not_lt hlt)

/-- Core of findMatchingServlet in the prefix branch: with pairwise
distinct registered patterns, no exact match, and m a maximal-length
prefix of the path among the registered patterns, m is selected. -/
theorem findMatching_eq_longest (ms : List SMap) (path : String)
    (hnd : (ms.map SMap.urlPattern).Nodup)
    (hno : ∀ m' ∈ ms, m'.urlPattern ≠ path)
    (m : SMap) (hm : m ∈ ms)
    (hpre : jsStartsWith path m.urlPattern = true)
    (hmax : ∀ m' ∈ ms, jsStartsWith path m'.urlPattern = true →
      m'.urlPattern.length ≤ m.urlPattern.length) :
    findMatchingServlet ms path = some m := by
  have hfind : ms.find? (fun m' => m'.urlPattern = path) = none := by
    rw [List.find?_eq_none]
    intro x hx
    simp only [decide_eq_true_eq]
    exact hno x hx
  have hmf : m ∈ ms.filter fun m' => jsStartsWith path m'.urlPattern := by
    rw [List.mem_filter]
    exact ⟨hm, by simp [hpre]⟩
  obtain ⟨h, t, heq, hhm, hhmax⟩ :=
    sortByLenDesc_head _ (List.ne_nil_of_mem hmf)
  have hhms : h ∈ ms := (List.mem_filter.mp hhm).1
  have hhpre : jsStartsWith path h.urlPattern = true := by
    have := (List.mem_filter.mp hhm).2
    simpa using this
  have hlen : h.urlPattern.length = m.urlPattern.length :=
    Nat.le_antisymm (hmax h hhms hhpre) (hhmax m hmf)
  have hpat : h.urlPattern = m.urlPattern :=
    pattern_eq_of_len hhpre hpre hlen
  have : h = m := List.inj_on_of_nodup_map hnd hhms hm hpat
  subst this
  simp [findMatchingServlet, hfind, heq]

/-- C1: for a running container, findMatchingServlet returns the exact
match when one exists; otherwise the registered pattern of greatest length
among those the path extends; and when no pattern is an exact match or a
prefix, dispatch returns false so the caller can fall through, while any
match makes handleRequest report the request as handled. -/
theorem servlet_dispatch_selection (s : ContainerState) (path : String)
    (hnd : (s.mappings.map SMap.urlPattern).Nodup)
    (hstarted : s.isStarted = true) :
    (∀ m ∈ s.mappings, m.urlPattern = path →
      findMatchingServlet s.mappings path = some m) ∧
    (∀ m ∈ s.mappings,
      (∀ m' ∈ s.mappings, m'.urlPattern ≠ path) →
      jsStartsWith path m.urlPattern = true →
      (∀ m' ∈ s.mappings, jsStartsWith path m'.urlPattern = true →
        m'.urlPattern.length ≤ m.urlPattern.length) →
      findMatchingServlet s.mappings path = some m) ∧
    ((∀ m' ∈ s.mappings, jsStartsWith path m'.urlPattern = false) →
      findMatchingServlet s.mappings path = none ∧
      handleRequest s path = (s, .ok false)) ∧
    (∀ m, findMatchingServlet s.mappings path = some m →
      (handleRequest s path).2 = .ok true) := by
  refine ⟨?_, ?_, ?_, ?_⟩
  · intro m hm hpat
    have hsome : (s.mappings.find? fun m' => m'.urlPattern = path).isSome = true := by
      rw [List.find?_isSome]
      exact ⟨m, hm, by simp [hpat]⟩
    obtain ⟨m0, hm0⟩ := Option.isSome_iff_exists.mp hsome
    have hm0pat : m0.urlPattern = path := by
      have := List.find?_some hm0
      simpa using this
    have hm0mem : m0 ∈ s.mappings := List.mem_of_find?_eq_some hm0
    have : m0 = m :=
      List.inj_on_of_nodup_map hnd hm0mem hm (hm0pat.trans hpat.symm)
    subst this
    simp [findMatchingServlet, hm0]
  · intro m hm hno hpre hmax
    exact findMatching_eq_longest s.mappings path hnd hno m hm hpre hmax
  · intro hnone
    have hfind : s.mappings.find? (fun m' => m'.urlPattern = path) = none := by
      rw [List.find?_eq_none]
      intro x hx
      simp only [decide_eq_true_eq]
      intro hpat
      have := hnone x hx
      rw [hpat] at this
      rw [jsStartsWith_refl] at this
      exact Bool.noConfusion this
    have hfilter : (s.mappings.filter fun m' => jsStartsWith path m'.urlPattern) = [] := by
      rw [List.filter_eq_nil_iff]
      intro x hx
      simp [hnone x hx]
    have hfm : findMatchingServlet s.mappings path = none := by
      simp [findMatchingServlet, hfind, hfilter, sortByLenDesc]
    refine ⟨hfm, ?_⟩
    simp [handleRequest, hstarted, hfm]
  · intro m hfm
    simp only [handleRequest, hstarted, Bool.not_true, Bool.false_eq_true, if_false, hfm]
    by_cases hI : isServletInitialized { m with requestCount := m.requestCount + 1 }
    · simp [hI]
    · simp only [hI, Bool.false_eq_true, if_false]
      rcases hr : (initializeServlet { m with requestCount := m.requestCount + 1 }).2 with _ | e
      all_goals simp [hr]

/-- Witness for C1: servlets mapped at /a and /a/b, a request to /a/b/c is
resolved to the /a/b servlet. -/
theorem servlet_dispatch_selection_witness :
    ((ContainerState.mk
        [SMap.mk "/a" "A" none 0 (some ()) [] ⟨false, false⟩,
         SMap.mk "/a/b" "AB" none 0 (some ()) [] ⟨false, false⟩] true).mappings.map
        SMap.urlPattern).Nodup ∧
    (ContainerState.mk
        [SMap.mk "/a" "A" none 0 (some ()) [] ⟨false, false⟩,
         SMap.mk "/a/b" "AB" none 0 (some ()) [] ⟨false, false⟩] true).isStarted = true ∧
    findMatchingServlet
        [SMap.mk "/a" "A" none 0 (some ()) [] ⟨false, false⟩,
         SMap.mk "/a/b" "AB" none 0 (some ()) [] ⟨false, false⟩] "/a/b/c" =
      some (SMap.mk "/a/b" "AB" none 0 (some ()) [] ⟨false, false⟩) :=
  ⟨by decide, by decide,
   (servlet_dispatch_selection
      (ContainerState.mk
        [SMap.mk "/a" "A" none 0 (some ()) [] ⟨false, false⟩,
         SMap.mk "/a/b" "AB" none 0 (some ()) [] ⟨false, false⟩] true)
      "/a/b/c" (by decide) (by decide)).2.1
     (SMap.mk "/a/b" "AB" none 0 (some ()) [] ⟨false, false⟩)
     (by decide) (by decide) (by decide) (by decide)⟩

/-- C10: container prefix matching is plain string-prefix matching, not
segment-aligned.  Whenever some registered pattern begins the request path
as a character sequence, a servlet is selected; and a maximal-length such
pattern that is not the whole path is selected even when the character
after it is not a separator. -/
theorem servlet_prefix_not_segment_aligned (s : ContainerState) (path : String)
    (hnd : (s.mappings.map SMap.urlPattern).Nodup) :
    ((∃ m ∈ s.mappings, jsStartsWith path m.urlPattern = true) →
      (findMatchingServlet s.mappings path).isSome = true) ∧
    (∀ m ∈ s.mappings,
      jsStartsWith path m.urlPattern = true →
      m.urlPattern ≠ path →
      (∀ m' ∈ s.mappings, jsStartsWith path m'.urlPattern = true →
        m'.urlPattern.length ≤ m.urlPattern.length) →
      findMatchingServlet s.mappings path = some m) := by
  constructor
  · rintro ⟨m, hm, hpre⟩
    rcases hf : s.mappings.find? (fun m' => m'.urlPattern = path) with _ | m0
    · have hmf : m ∈ s.mappings.filter fun m' => jsStartsWith path m'.urlPattern := by
        rw [List.mem_filter]
        exact ⟨hm, by simp [hpre]⟩
      obtain ⟨h, t, heq, _, _⟩ := sortByLenDesc_head _ (List.ne_nil_of_mem hmf)
      simp [findMatchingServlet, hf, heq]
    · simp [findMatchingServlet, hf]
  · intro m hm hpre hne hmax
    have hno : ∀ m' ∈ s.mappings, m'.urlPattern ≠ path := by
      intro m' hm' hpat
      have hpre' : jsStartsWith path m'.urlPattern = true := by
        rw [hpat]
        exact jsStartsWith_refl path
      have h1 : m'.urlPattern.length ≤ m.urlPattern.length := hmax m' hm' hpre'
      have h2 : m.urlPattern.length ≤ m'.urlPattern.length := by
        rw [hpat, strLen_toList, strLen_toList]
        exact ((jsStartsWith_iff path m.urlPattern).mp hpre).length_le
      have hlen : m.urlPattern.length = m'.urlPattern.length := Nat.le_antisymm h2 h1
      exact hne (pattern_eq_of_len hpre hpre' hlen |>.trans hpat)
    exact findMatching_eq_longest s.mappings path hnd hno m hm hpre hmax

/-- Witness for C10: a servlet mapped at /servlet/hello also receives a
request to /servlet/helloextra, although the character after the prefix is
not a separator. -/
theorem servlet_prefix_not_segment_aligned_witness :
    (([SMap.mk "/servlet/hello" "H" none 0 (some ()) [] ⟨false, false⟩,
       SMap.mk "/servlet/api" "P" none 0 (some ()) [] ⟨false, false⟩].map
        SMap.urlPattern).Nodup) ∧
    findMatchingServlet
        [SMap.mk "/servlet/hello" "H" none 0 (some ()) [] ⟨false, false⟩,
         SMap.mk "/servlet/api" "P" none 0 (some ()) [] ⟨false, false⟩]
        "/servlet/helloextra" =
      some (SMap.mk "/servlet/hello" "H" none 0 (some ()) [] ⟨false, false⟩) :=
  ⟨by decide,
   (servlet_prefix_not_segment_aligned
      (ContainerState.mk
        [SMap.mk "/servlet/hello" "H" none 0 (some ()) [] ⟨false, false⟩,
         SMap.mk "/servlet/api" "P" none 0 (some ()) [] ⟨false, false⟩] true)
      "/servlet/helloextra" (by decide)).2
     (SMap.mk "/servlet/hello" "H" none 0 (some ()) [] ⟨false, false⟩)
     (by decide) (by decide) (by decide) (by decide)⟩

/-! ## Route (src/core/Route.ts)

Route.createPattern turns a template into a regular expression by two
successive global replacements on the template string: every separator is
escaped to backslash-slash, then every colon followed by a nonempty run of
non-separator characters is replaced by a capture group while the run is
pushed onto paramNames.  The resulting pattern is anchored on both sides.

The generated regular expressions only ever use literal characters,
the escaped separator, and the fixed capture group for one-or-more
non-separator characters, so the model parses the generated pattern string
into this token language and interprets it with the greedy backtracking
semantics of JS RegExp.  Templates whose literal text contains other regex
metacharacters are outside the model: tokenization refuses them. -/

inductive Tok
  | lit (c : Char)
  | group
deriving DecidableEq, Repr

/-- JS String.prototype.replace(slashRegexGlobal, doubleBackslashSlash):
escape every separator. -/
def escapeSlashes : List Char → List Char
  | [] => []
  | c :: cs => if c = '/' then '\\' :: '/' :: escapeSlashes cs else c :: escapeSlashes cs

/-- The characters of the replacement capture group, a parenthesised
one-or-more repetition of the class of non-separator characters. -/
def groupMarker : List Char := ['(', '[', '^', '\\', '/', ']', '+', ')']

/-- The second replacement of Route.createPattern: scan for a colon
followed by a maximal nonempty run of non-separator characters, push the
run as a parameter name and emit the capture group.  Fuel decreases on
every step and each step consumes at least one character, so one more than
the input length always suffices. -/
def substParamsF : Nat → List Char → List Char × List String
  | 0, rest => (rest, [])
  | _ + 1, [] => ([], [])
  | fuel + 1, c :: cs =>
      if c = ':' then
        let run := cs.takeWhile fun d => d ≠ '/'
        if run.isEmpty then
          let r := substParamsF fuel cs
          (':' :: r.1, r.2)
        else
          let r := substParamsF fuel (cs.drop run.length)
          (groupMarker ++ r.1, String.mk run :: r.2)
      else
        let r := substParamsF fuel cs
        (c :: r.1, r.2)

def substParams (l : List Char) : List Char × List String :=
  substParamsF (l.length + 1) l

/-- Regex metacharacters: a generated pattern containing one outside the
recognised forms is not representable in the token language. -/
def isMeta (c : Char) : Bool :=
  c = '(' || c = ')' || c = '[' || c = ']' || c = '\x7b' || c = '\x7d' ||
  c = '*' || c = '+' || c = '?' || c = '.' || c = '^' || c = '$' ||
  c = '|' || c = '\\'

/-- Parse the generated pattern body into tokens: the capture group
becomes a group token, an escaped separator becomes a literal separator,
and any other non-metacharacter stands for itself. -/
def tokenize : List Char → Option (List Tok)
  | [] => some []
  | c :: rest =>
      if c = '(' then
        match rest with
        | '[' :: '^' :: '\\' :: '/' :: ']' :: '+' :: ')' :: rest' =>
            (tokenize rest').map fun ts => Tok.group :: ts
        | _ => none
      else if c = '\\' then
        match rest with
        | d :: rest' =>
            if d = '/' then (tokenize rest').map fun ts => Tok.lit '/' :: ts else none
        | [] => none
      else if isMeta c then
        none
      else
        (tokenize rest).map fun ts => Tok.lit c :: ts

/-- Route.createPattern: escape separators, substitute parameters, parse
the body (the caret and dollar anchors are modelled by the matcher
requiring the whole subject to be consumed). -/
def compile (path : String) : Option (List Tok × List String) :=
  let pr := substParams (escapeSlashes path.toList)
  (tokenize pr.1).map fun toks => (toks, pr.2)

/-- The candidate capture lengths a greedy one-or-more group tries, from
the longest feasible down to one. -/
def downFrom : Nat → List Nat
  | 0 => []
  | n + 1 => (n + 1) :: downFrom n

/-- Backtracking helper: try each candidate capture length in order,
matching the rest of the pattern against the rest of the subject. -/
def tryCaps (f : List Char → Option (List (List Char)))
    (s : List Char) : List Nat → Option (List (List Char))
  | [] => none
  | k :: ks =>
      match f (s.drop k) with
      | some caps => some (s.take k :: caps)
      | none => tryCaps f s ks

/-- Greedy backtracking interpretation of the token language, with the JS
RegExp semantics of an anchored pattern: a literal consumes exactly its
character, a group consumes the longest nonempty run of non-separator
characters that lets the remainder match, and the whole subject must be
consumed.  Fuel decreases with the token list; one more than its length
always suffices. -/
def rmatchF : Nat → List Tok → List Char → Option (List (List Char))
  | 0, _, _ => none
  | _ + 1, [], s => if s.isEmpty then some [] else none
  | fuel + 1, Tok.lit c :: ts, s =>
      match s with
      | [] => none
      | p :: ps => if p = c then rmatchF fuel ts ps else none
  | fuel + 1, Tok.group :: ts, s =>
      tryCaps (fun rest => rmatchF fuel ts rest) s
        (downFrom (s.takeWhile fun c => c ≠ '/').length)

def rmatch (ts : List Tok) (s : List Char) : Option (List (List Char)) :=
  rmatchF (ts.length + 1) ts s

/-- Reassemble a subject from the pattern tokens and the captures. -/
def render : List Tok → List (List Char) → List Char
  | [], _ => []
  | Tok.lit c :: ts, caps => c :: render ts caps
  | Tok.group :: ts, [] => render ts []
  | Tok.group :: ts, cap :: caps => cap ++ render ts caps

def countGroups : List Tok → Nat
  | [] => 0
  | Tok.lit _ :: ts => countGroups ts
  | Tok.group :: ts => countGroups ts + 1

/-- JS object property assignment: overwrite in place when the key exists,
append otherwise. -/
def recSet : List (String × String) → String → String → List (String × String)
  | [], n, v => [(n, v)]
  | (k, w) :: rest, n, v =>
      if k = n then (k, v) :: rest else (k, w) :: recSet rest n v

/-- JS object property read. -/
def recGet : List (String × String) → String → Option String
  | [], _ => none
  | (k, w) :: rest, n => if k = n then some w else recGet rest n

/-- The parameter-extraction loop of Route.match: assign capture i+1 to
paramNames[i] in order. -/
def buildParams (names : List String) (caps : List (List Char)) : List (String × String) :=
  (names.zip (caps.map String.mk)).foldl (fun acc p => recSet acc p.1 p.2) []

/-- Route.match for a template given as a string: compile, run the
anchored pattern, extract parameters. -/
def matchTemplate (tpl path : String) : Option (List (String × String)) :=
  (compile tpl).bind fun pr => (rmatchF (pr.1.length + 1) pr.1 path.toList).map (buildParams pr.2)

/-! ## Soundness of the route matcher -/

theorem tryCaps_sound (f : List Char → Option (List (List Char))) (s : List Char) :
    ∀ ks caps, tryCaps f s ks = some caps →
      ∃ k ∈ ks, ∃ caps', f (s.drop k) = some caps' ∧ caps = s.take k :: caps' := by
  intro ks
  induction ks with
  | nil => intro caps h; simp [tryCaps] at h
  | cons k ks ih =>
      intro caps h
      rcases hf : f (s.drop k) with _ | caps'
      · rw [tryCaps, hf] at h
        obtain ⟨k', hk', r⟩ := ih caps h
        exact ⟨k', List.mem_cons_of_mem _ hk', r⟩
      · rw [tryCaps, hf] at h
        exact ⟨k, List.mem_cons_self _ _, caps', hf, (Option.some_inj.mp h).symm⟩

theorem downFrom_mem {n k : Nat} : k ∈ downFrom n ↔ 1 ≤ k ∧ k ≤ n := by
  induction n with
  | zero =>
      simp [downFrom]
      omega
  | succ n ih =>
      simp only [downFrom, List.mem_cons, ih]
      omega

theorem takeWhile_len_le (p : Char → Bool) (s : List Char) :
    (s.takeWhile p).length ≤ s.length := by
  induction s with
  | nil => simp [List.takeWhile]
  | cons c cs ih =>
      rw [List.takeWhile]
      cases p c
      · simp
      · simpa using ih

theorem take_eq_take_takeWhile (p : Char → Bool) :
    ∀ (s : List Char) (k : Nat), k ≤ (s.takeWhile p).length →
      s.take k = (s.takeWhile p).take k := by
  intro s
  induction s with
  | nil => simp [List.takeWhile]
  | cons c cs ih =>
      intro k hk
      rw [List.takeWhile] at hk ⊢
      cases hp : p c
      · rw [hp] at hk
        simp at hk
        subst hk
        simp
      · rw [hp] at hk
        cases k with
        | zero => simp
        | succ k =>
            simp only [List.length_cons, Nat.succ_le_succ_iff] at hk
            simp [List.take_succ_cons, ih k hk]

/-- Whatever the anchored matcher accepts reassembles, capture by capture,
into exactly the subject; there is one capture per group; and every
capture is a nonempty run of non-separator characters. -/
theorem rmatchF_sound :
    ∀ fuel ts s caps, rmatchF fuel ts s = some caps →
      render ts caps = s ∧ caps.length = countGroups ts ∧
      ∀ c ∈ caps, c ≠ [] ∧ ∀ ch ∈ c, ch ≠ '/' := by
  intro fuel
  induction fuel with
  | zero => intro ts s caps h; simp [rmatchF] at h
  | succ fuel ih =>
      intro ts s caps h
      match ts with
      | [] =>
          rcases s with _ | ⟨p, ps⟩
          · simp [rmatchF] at h
            subst h
            simp [render, countGroups]
          · simp [rmatchF, List.isEmpty] at h
      | Tok.lit c :: ts' =>
          rcases s with _ | ⟨p, ps⟩
          · simp [rmatchF] at h
          · rw [rmatchF] at h
            by_cases hpc : p = c
            · rw [if_pos hpc] at h
              obtain ⟨hr, hl, hc⟩ := ih ts' ps caps h
              refine ⟨?_, hl, hc⟩
              rw [render, hr, hpc]
            · rw [if_neg hpc] at h
              exact absurd h (by simp)
      | Tok.group :: ts' =>
          rw [rmatchF] at h
          obtain ⟨k, hk, caps', hf, hcaps⟩ := tryCaps_sound _ _ _ _ h
          obtain ⟨hk1, hkL⟩ := downFrom_mem.mp hk
          obtain ⟨hr, hl, hc⟩ := ih ts' (s.drop k) caps' hf
          subst hcaps
          have hkS : k ≤ s.length :=
            Nat.le_trans hkL (takeWhile_len_le _ s)
          refine ⟨?_, by simp [countGroups, hl], ?_⟩
          · rw [render, hr, List.take_append_drop]
          · intro c hc'
            rcases List.mem_cons.mp hc' with hc' | hc'
            · subst hc'
              constructor
              · intro hnil
                have h0 : (List.take k s).length = 0 := by rw [hnil]; rfl
                rw [List.length_take] at h0
                omega
              · intro ch hch
                rw [take_eq_take_takeWhile _ s k hkL] at hch
                have := List.mem_takeWhile_imp (List.take_subset _ _ hch)
                simpa using this
            · exact hc c hc'

/-- Escaping separators introduces only backslashes. -/
theorem mem_of_mem_escapeSlashes {c : Char} :
    ∀ l, c ∈ escapeSlashes l → c = '\\' ∨ c ∈ l := by
  intro l
  induction l with
  | nil => simp [escapeSlashes]
  | cons d ds ih =>
      by_cases hd : d = '/'
      · subst hd
        intro h
        have h' : c = '\\' ∨ c = '/' ∨ c ∈ escapeSlashes ds := by
          simpa [escapeSlashes] using h
        rcases h' with h' | h' | h'
        · exact Or.inl h'
        · exact Or.inr (List.mem_cons.mpr (Or.inl h'))
        · rcases ih h' with h2 | h2
          · exact Or.inl h2
          · exact Or.inr (List.mem_cons_of_mem _ h2)
      · intro h
        have h' : c = d ∨ c ∈ escapeSlashes ds := by
          simpa [escapeSlashes, hd] using h
        rcases h' with h' | h'
        · exact Or.inr (List.mem_cons.mpr (Or.inl h'))
        · rcases ih h' with h2 | h2
          · exact Or.inl h2
          · exact Or.inr (List.mem_cons_of_mem _ h2)

theorem tokenize_marker (l : List Char) :
    tokenize (groupMarker ++ l) = (tokenize l).map fun ts => Tok.group :: ts := rfl

theorem tokenize_plain (c : Char) (l : List Char)
    (h1 : c ≠ '(') (h2 : c ≠ '\\') (h3 : isMeta c = false) :
    tokenize (c :: l) = (tokenize l).map fun ts => Tok.lit c :: ts := by
  rw [tokenize.eq_def]
  simp only [if_neg h1, if_neg h2, h3]
  simp

theorem tokenize_meta (c : Char) (l : List Char)
    (h1 : c ≠ '(') (h2 : c ≠ '\\') (h3 : isMeta c = true) :
    tokenize (c :: l) = none := by
  rw [tokenize.eq_def]
  simp only [if_neg h1, if_neg h2, h3]
  simp

theorem tokenize_backslash (l : List Char) (toks : List Tok)
    (h : tokenize ('\\' :: l) = some toks) :
    ∃ rest' toks', l = '/' :: rest' ∧ tokenize rest' = some toks' ∧
      toks = Tok.lit '/' :: toks' := by
  rcases l with _ | ⟨d, rest'⟩
  · rw [(by decide : tokenize ['\\'] = none)] at h
    exact Option.noConfusion h
  · have heq : tokenize ('\\' :: d :: rest') =
        if d = '/' then (tokenize rest').map (fun ts => Tok.lit '/' :: ts) else none := by
      rw [tokenize.eq_def]
      simp only [reduceIte]
      exact rfl
    rw [heq] at h
    by_cases hd : d = '/'
    · subst hd
      rw [if_pos rfl] at h
      simp only [Option.map_eq_some'] at h
      obtain ⟨toks', ht', htoks⟩ := h
      exact ⟨rest', toks', rfl, ht', htoks.symm⟩
    · rw [if_neg hd] at h
      exact Option.noConfusion h

theorem subst_count :
    ∀ fuel l, l.length < fuel → ('(' : Char) ∉ l →
      ∀ toks, tokenize (substParamsF fuel l).1 = some toks →
        countGroups toks = (substParamsF fuel l).2.length := by
  intro fuel
  induction fuel with
  | zero => intro l hl; omega
  | succ fuel ih =>
      intro l hl hpar toks htok
      match l with
      | [] =>
          simp only [substParamsF] at htok ⊢
          simp only [tokenize] at htok
          obtain rfl := Option.some_inj.mp htok
          rfl
      | c :: cs =>
          have hlen : cs.length < fuel := by
            simp only [List.length_cons] at hl
            omega
          have hc : c ≠ '(' := fun hcc => hpar (hcc ▸ List.mem_cons_self c cs)
          have hcs : ('(' : Char) ∉ cs := fun hm => hpar (List.mem_cons_of_mem _ hm)
          by_cases hcolon : c = ':'
          · subst hcolon
            simp only [substParamsF, if_pos rfl] at htok ⊢
            rcases hrun : (cs.takeWhile fun d => d ≠ '/').isEmpty with _ | _
            · -- nonempty parameter-name run: a capture group is emitted
              rw [hrun] at htok
              simp only [Bool.false_eq_true, if_false, if_true] at htok ⊢
              rw [tokenize_marker] at htok
              simp only [Option.map_eq_some'] at htok
              obtain ⟨toks', ht', htoks⟩ := htok
              subst htoks
              have hd : ('(' : Char) ∉ cs.drop (cs.takeWhile fun d => d ≠ '/').length :=
                fun hm => hcs (List.drop_subset _ _ hm)
              have hdl : (cs.drop (cs.takeWhile fun d => d ≠ '/').length).length < fuel := by
                have := List.length_drop ((cs.takeWhile fun d => d ≠ '/').length) cs
                omega
              have := ih _ hdl hd toks' ht'
              simp only [countGroups, this, List.length_cons]
            · -- empty run: the colon stays a literal
              rw [hrun] at htok
              simp only [if_true] at htok ⊢
              rw [tokenize_plain ':' _ (by decide) (by decide) (by decide)] at htok
              simp only [Option.map_eq_some'] at htok
              obtain ⟨toks', ht', htoks⟩ := htok
              subst htoks
              simpa [countGroups] using ih cs hlen hcs toks' ht'
          · simp only [substParamsF, if_neg hcolon] at htok ⊢
            by_cases hbs : c = '\\'
            · subst hbs
              obtain ⟨rest', toks', hsplit, ht', htoks⟩ := tokenize_backslash _ _ htok
              subst htoks
              have hfull : tokenize (substParamsF fuel cs).1 = some (Tok.lit '/' :: toks') := by
                rw [hsplit, tokenize_plain '/' _ (by decide) (by decide) (by decide), ht']
                rfl
              simpa [countGroups] using ih cs hlen hcs _ hfull
            · rcases hmeta : isMeta c with _ | _
              · rw [tokenize_plain c _ hc hbs hmeta] at htok
                simp only [Option.map_eq_some'] at htok
                obtain ⟨toks', ht', htoks⟩ := htok
                subst htoks
                simpa [countGroups] using ih cs hlen hcs toks' ht'
              · rw [tokenize_meta c _ hc hbs hmeta] at htok
                exact Option.noConfusion htok

theorem recGet_append_none (a b : List (String × String)) (k : String)
    (h : recGet a k = none) : recGet (a ++ b) k = recGet b k := by
  induction a with
  | nil => simp
  | cons p rest ih =>
      rw [recGet] at h
      by_cases hk : p.1 = k
      · rw [if_pos hk] at h
        exact Option.noConfusion h
      · rw [if_neg hk] at h
        rw [List.cons_append, recGet, if_neg hk]
        exact ih h

theorem recSet_append (acc : List (String × String)) (n v : String)
    (h : recGet acc n = none) : recSet acc n v = acc ++ [(n, v)] := by
  induction acc with
  | nil => simp [recSet]
  | cons p rest ih =>
      rw [recGet] at h
      by_cases hk : p.1 = n
      · rw [if_pos hk] at h
        exact Option.noConfusion h
      · rw [if_neg hk] at h
        rw [recSet, if_neg hk, List.cons_append, ih h]

theorem foldl_recSet_fresh :
    ∀ (ps acc : List (String × String)),
      (∀ p ∈ ps, recGet acc p.1 = none) → (ps.map Prod.fst).Nodup →
      ps.foldl (fun a p => recSet a p.1 p.2) acc = acc ++ ps := by
  intro ps
  induction ps with
  | nil => intro acc _ _; simp
  | cons p rest ih =>
      intro acc hfresh hnd
      have hp : recGet acc p.1 = none := hfresh p (List.mem_cons_self _ _)
      have hnd' : (rest.map Prod.fst).Nodup := (List.nodup_cons.mp hnd).2
      have hnotin : p.1 ∉ rest.map Prod.fst := (List.nodup_cons.mp hnd).1
      rw [List.foldl_cons, recSet_append acc p.1 p.2 hp]
      rw [ih (acc ++ [(p.1, p.2)]) ?fresh hnd']
      · simp
      case fresh =>
        intro q hq
        have hq1 : recGet acc q.1 = none := hfresh q (List.mem_cons_of_mem _ hq)
        have hqn : q.1 ≠ p.1 := by
          intro he
          exact hnotin (he ▸ List.mem_map_of_mem Prod.fst hq)
        rw [recGet_append_none _ _ _ hq1, recGet, if_neg (fun he => hqn he.symm)]
        rfl

theorem buildParams_eq (names : List String) (caps : List (List Char))
    (hnd : names.Nodup) (hlen : caps.length = names.length) :
    buildParams names caps = names.zip (caps.map String.mk) := by
  have hkeys : (names.zip (caps.map String.mk)).map Prod.fst = names :=
    List.map_fst_zip names (caps.map String.mk) (by simp [hlen])
  have := foldl_recSet_fresh (names.zip (caps.map String.mk)) []
    (fun p _ => rfl) (by rw [hkeys]; exact hnd)
  simpa [buildParams] using this

theorem recGet_zip :
    ∀ (names vals : List String), names.Nodup →
      ∀ i (h1 : i < names.length) (h2 : i < vals.length),
        recGet (names.zip vals) (names.get ⟨i, h1⟩) = some (vals.get ⟨i, h2⟩) := by
  intro names
  induction names with
  | nil =>
      intro vals _ i h1
      simp at h1
  | cons n names' ih =>
      intro vals hnd i h1 h2
      rcases vals with _ | ⟨v, vals'⟩
      · simp at h2
      · rcases i with _ | i
        · simp [recGet]
        · have hkey : (n :: names').get ⟨i + 1, h1⟩ = names'.get ⟨i, by simpa using h1⟩ := rfl
          have hmem : names'.get ⟨i, by simpa using h1⟩ ∈ names' := List.get_mem _ _ _
          have hne : n ≠ names'.get ⟨i, by simpa using h1⟩ := by
            intro he
            exact (List.nodup_cons.mp hnd).1 (he ▸ hmem)
          rw [hkey, List.zip_cons_cons, recGet, if_neg hne]
          exact ih vals' (List.nodup_cons.mp hnd).2 i _ (by simpa using h2)

/-- C3 counterexample: the claim says Route.match assigns captured values
to the template's parameter names, with one record entry per parameter.
Because createPattern escapes separators before extracting parameter
names, the name captured for a parameter that is followed by more path
swallows the inserted backslash: for the template /p/:a/q/:a/r the
compiled names are both the two-character string a-backslash, so the
record collapses to a single entry keyed by that mangled name and a
lookup under the template name a finds nothing, although the path
/p/1/q/2/r matches. -/
theorem matchTemplate_mangled_names_counterexample :
    matchTemplate "/p/:a/q/:a/r" "/p/1/q/2/r" = some [("a\\", "2")] ∧
    (compile "/p/:a/q/:a/r").map Prod.snd = some ["a\\", "a\\"] ∧
    recGet [("a\\", "2")] "a" = none ∧
    matchTemplate "/users/:id/posts/:postId" "/users/7/posts/9" =
      some [("id\\", "7"), ("postId", "9")] ∧
    recGet [("id\\", "7"), ("postId", "9")] "id" = none := by
  decide

/-- C3 (amended): for every template that compiles, whose literal text
contains no opening parenthesis, and whose compiled parameter names are
pairwise distinct, a successful Route.match is fully anchored (the
captures and literals reassemble the entire path), every capture is a
nonempty run of separator-free characters, there is exactly one capture
per compiled parameter name, and the returned record assigns the captures
to the compiled parameter names in template order - where a compiled name
carries a trailing backslash when its parameter is followed by a further
separator in the template. -/
theorem matchTemplate_spec (tpl path : String) (toks : List Tok)
    (names : List String) (ps : List (String × String))
    (hc : compile tpl = some (toks, names))
    (hpar : ('(' : Char) ∉ tpl.toList)
    (hnd : names.Nodup)
    (hm : matchTemplate tpl path = some ps) :
    ∃ caps : List (List Char),
      rmatch toks path.toList = some caps ∧
      render toks caps = path.toList ∧
      (∀ c ∈ caps, c ≠ [] ∧ ∀ ch ∈ c, ch ≠ '/') ∧
      caps.length = names.length ∧
      ps = names.zip (caps.map String.mk) ∧
      ps.length = names.length ∧
      (∀ i (h1 : i < names.length) (h2 : i < caps.length),
        recGet ps (names.get ⟨i, h1⟩) = some (String.mk (caps.get ⟨i, h2⟩))) := by
  rw [matchTemplate, hc] at hm
  simp only [Option.some_bind, Option.map_eq_some'] at hm
  obtain ⟨caps, hr, hbuild⟩ := hm
  obtain ⟨hrender, hcount, hclean⟩ := rmatchF_sound _ _ _ _ hr
  have hgroups : countGroups toks = names.length := by
    have hcpl := hc
    rw [compile] at hcpl
    simp only [Option.map_eq_some'] at hcpl
    obtain ⟨toks0, htk0, heq0⟩ := hcpl
    obtain ⟨rfl, rfl⟩ : toks0 = toks ∧ (substParams (escapeSlashes tpl.toList)).2 = names := by
      constructor
      · exact congrArg Prod.fst heq0
      · exact congrArg Prod.snd heq0
    have hpar' : ('(' : Char) ∉ escapeSlashes tpl.toList := by
      intro hm'
      rcases mem_of_mem_escapeSlashes _ hm' with h | h
      · exact absurd h (by decide)
      · exact hpar h
    exact subst_count _ _ (Nat.lt_succ_self _) hpar' _ htk0
  have hlen : caps.length = names.length := hcount.trans hgroups
  have hps : ps = names.zip (caps.map String.mk) :=
    hbuild.symm.trans (buildParams_eq names caps hnd hlen)
  refine ⟨caps, hr, hrender, hclean, hlen, hps, ?_, ?_⟩
  · rw [hps, List.length_zip, List.length_map, hlen, Nat.min_self]
  · intro i h1 h2
    rw [hps]
    have := recGet_zip names (caps.map String.mk) hnd i h1 (by simpa using h2)
    rw [this]
    congr 1
    simp

/-- Witness for C3 at the template /users/:id and the path /users/42. -/
theorem matchTemplate_spec_witness :
    compile "/users/:id" = some
      ([Tok.lit '/', Tok.lit 'u', Tok.lit 's', Tok.lit 'e', Tok.lit 'r', Tok.lit 's',
        Tok.lit '/', Tok.group], ["id"]) ∧
    ('(' : Char) ∉ "/users/:id".toList ∧
    (["id"] : List String).Nodup ∧
    matchTemplate "/users/:id" "/users/42" = some [("id", "42")] ∧
    (∃ caps : List (List Char),
      rmatch [Tok.lit '/', Tok.lit 'u', Tok.lit 's', Tok.lit 'e', Tok.lit 'r', Tok.lit 's',
        Tok.lit '/', Tok.group] "/users/42".toList = some caps ∧
      render [Tok.lit '/', Tok.lit 'u', Tok.lit 's', Tok.lit 'e', Tok.lit 'r', Tok.lit 's',
        Tok.lit '/', Tok.group] caps = "/users/42".toList ∧
      (∀ c ∈ caps, c ≠ [] ∧ ∀ ch ∈ c, ch ≠ '/') ∧
      caps.length = (["id"] : List String).length ∧
      [("id", "42")] = (["id"] : List String).zip (caps.map String.mk) ∧
      ([("id", "42")] : List (String × String)).length = (["id"] : List String).length ∧
      (∀ i (h1 : i < (["id"] : List String).length) (h2 : i < caps.length),
        recGet [("id", "42")] ((["id"] : List String).get ⟨i, h1⟩) =
          some (String.mk (caps.get ⟨i, h2⟩)))) :=
  ⟨by decide, by decide, by decide, by decide,
   matchTemplate_spec "/users/:id" "/users/42"
     [Tok.lit '/', Tok.lit 'u', Tok.lit 's', Tok.lit 'e', Tok.lit 'r', Tok.lit 's',
      Tok.lit '/', Tok.group] ["id"] [("id", "42")]
     (by decide) (by decide) (by decide) (by decide)⟩

/-! ## Router (src/core/Router.ts)

Route handlers and middlewares are external collaborators; their
observable behaviours are modelled as small inductive types.  A handler
either sends a response or throws; a middleware either calls its
continuation once, returns without calling it (short-circuit), or
throws. -/

inductive HandlerB
  | respond (status : Nat)
  | raiseErr
deriving DecidableEq, Repr, Inhabited

/-- One entry of the routes array: class Route, with the compiled pattern
and parameter names produced by createPattern. -/
structure RRoute where
  method : String
  path : String
  tokens : List Tok
  paramNames : List String
  handler : HandlerB
deriving DecidableEq, Repr, Inhabited

/-- The Route constructor: compiles the pattern eagerly (a template whose
generated pattern the model cannot represent yields none). -/
def mkRoute (method path : String) (handler : HandlerB) : Option RRoute :=
  (compile path).map fun pr =>
    { method := method, path := path, tokens := pr.1, paramNames := pr.2, handler := handler }

/-- Route.match: run the anchored pattern, then extract parameters. -/
def routeMatch (r : RRoute) (path : String) : Option (List (String × String)) :=
  (rmatch r.tokens path.toList).map (buildParams r.paramNames)

/-- Router.addRoute: push onto the routes array, with no validation and
no duplicate check. -/
def addRoute (routes : List RRoute) (r : RRoute) : List RRoute :=
  routes ++ [r]

/-- Router.findRoute: scan the routes array in insertion order and return
the first whose method equals the request method and whose pattern
matches the request path, together with the extracted parameters. -/
def findRoute : List RRoute → String → String → Option (RRoute × List (String × String))
  | [], _, _ => none
  | r :: rs, method, path =>
      if r.method = method then
        match routeMatch r path with
        | some params => some (r, params)
        | none => findRoute rs method path
      else
        findRoute rs method path

/-- C2: routes are scanned in insertion order and the first registration
whose method and template match wins, so with duplicate or ambiguous
templates the earlier-registered handler is invoked; and addRoute appends
unconditionally, so duplicate (method, template) pairs are accepted
without error. -/
theorem router_first_match (pre post : List RRoute) (r : RRoute)
    (method path : String) (params : List (String × String))
    (hpre : ∀ r' ∈ pre, r'.method = method → routeMatch r' path = none)
    (hmeth : r.method = method)
    (hmatch : routeMatch r path = some params) :
    findRoute (pre ++ r :: post) method path = some (r, params) ∧
    (∀ (routes : List RRoute) (dup : RRoute), addRoute routes dup = routes ++ [dup]) := by
  refine ⟨?_, fun _ _ => rfl⟩
  induction pre with
  | nil =>
      simp only [List.nil_append, findRoute, if_pos hmeth, hmatch]
  | cons r' pre' ih =>
      rw [List.cons_append, findRoute]
      by_cases hm' : r'.method = method
      · rw [if_pos hm', hpre r' (List.mem_cons_self _ _) hm']
        exact ih fun q hq => hpre q (List.mem_cons_of_mem _ hq)
      · rw [if_neg hm']
        exact ih fun q hq => hpre q (List.mem_cons_of_mem _ hq)

/-- The two ambiguous routes of the C2 witness: same literal segments,
different parameter names, both matching /items/5. -/
def routeItemsId : RRoute := (mkRoute "GET" "/items/:id" (HandlerB.respond 200)).getD default

def routeItemsKey : RRoute := (mkRoute "GET" "/items/:key" (HandlerB.respond 201)).getD default

/-- Witness for C2: with /items/:id registered before /items/:key, a GET
of /items/5 is dispatched to the first registration. -/
theorem router_first_match_witness :
    (∀ r' ∈ ([] : List RRoute), r'.method = "GET" → routeMatch r' "/items/5" = none) ∧
    routeItemsId.method = "GET" ∧
    routeMatch routeItemsId "/items/5" = some [("id", "5")] ∧
    routeMatch routeItemsKey "/items/5" = some [("key", "5")] ∧
    (findRoute ([] ++ routeItemsId :: [routeItemsKey]) "GET" "/items/5" =
      some (routeItemsId, [("id", "5")]) ∧
     (∀ (routes : List RRoute) (dup : RRoute), addRoute routes dup = routes ++ [dup])) :=
  ⟨by decide, by decide, by decide, by decide,
   router_first_match [] [routeItemsKey] routeItemsId "GET" "/items/5" [("id", "5")]
     (by decide) (by decide) (by decide)⟩

/-! ## Router.handle and the middleware chain (claim C5)

The response abstraction records the status code last set and whether the
response has been finished (Response.send marks it finished).  The
executeMiddlewares recursion is modelled in direct style with the crucial
property of the source preserved: the next() continuation invokes the
remainder of the chain but ignores the promise it returns, so state
effects of the remainder happen while an error from the remainder is
dropped instead of propagating to the awaiting caller.  Router.handle
appends routing as a synthetic last middleware when any middleware is
registered, and catches only errors that reach it, converting them to a
500 response when the response is not yet finished. -/

structure RState where
  status : Nat
  finished : Bool
deriving DecidableEq, Repr

/-- response.status(code) followed by a body send. -/
def sendResponse (statusCode : Nat) (s : RState) : RState :=
  { s with status := statusCode, finished := true }

inductive MwB
  | callNext
  | halt
  | raiseErr
deriving DecidableEq, Repr

inductive ChainItem
  | mw (b : MwB)
  | routing
deriving DecidableEq, Repr

/-- Router.executeRouting: dispatch to the first matching route, or send
the fixed 404 page. -/
def execRouting (routes : List RRoute) (method path : String) (s : RState) :
    RState × Option String :=
  match findRoute routes method path with
  | some rp =>
      match rp.1.handler with
      | HandlerB.respond code => (sendResponse code s, none)
      | HandlerB.raiseErr => (s, some "handler error")
  | none => (sendResponse 404 s, none)

/-- Router.executeMiddlewares in direct style.  In the callNext case the
recursive call is the un-awaited promise started by next(): its state
effects survive, its error component is discarded. -/
def execChain (routes : List RRoute) (method path : String) :
    List ChainItem → RState → RState × Option String
  | [], s => (s, none)
  | ChainItem.mw b :: rest, s =>
      match b with
      | MwB.callNext => ((execChain routes method path rest s).1, none)
      | MwB.halt => (s, none)
      | MwB.raiseErr => (s, some "middleware error")
  | ChainItem.routing :: _, s => execRouting routes method path s

/-- Router.handle: with middlewares, run the chain extended by the
routing step; without, run routing directly; convert an error that
reached the try-catch into a 500 response unless the response is already
finished. -/
def routerHandle (mws : List MwB) (routes : List RRoute) (method path : String)
    (s : RState) : RState :=
  let r :=
    if mws.isEmpty then execRouting routes method path s
    else execChain routes method path (mws.map ChainItem.mw ++ [ChainItem.routing]) s
  match r.2 with
  | some _ => if r.1.finished then r.1 else sendResponse 500 r.1
  | none => r.1

def routeBoom : RRoute := (mkRoute "GET" "/x" HandlerB.raiseErr).getD default

/-- C5: the claim says every error raised by a handler or middleware is
caught at the Router boundary and turned into a 500 when nothing was
sent.  With no middleware registered this holds (second conjunct), but
with any middleware present the continuation passed to the middleware
starts the remainder of the chain without awaiting it, so a throwing
route handler produces an unobserved rejection: no 500 is written and
the response is left unsent (first conjunct), contradicting the claim.
A throw from the first middleware itself is still converted (third
conjunct). -/
theorem router_error_swallowed_with_middleware :
    routerHandle [MwB.callNext] [routeBoom] "GET" "/x" (RState.mk 200 false) =
      RState.mk 200 false ∧
    routerHandle [] [routeBoom] "GET" "/x" (RState.mk 200 false) =
      RState.mk 500 true ∧
    routerHandle [MwB.raiseErr] [routeBoom] "GET" "/x" (RState.mk 200 false) =
      RState.mk 500 true := by
  decide
